import Mathlib

/-!
Shallow embedding of the scrape/ingest engine of `telefonbuch-scraper.py`:
the query-key enumerator, the recursive address flattener `parse_address`,
the per-page SQL-row builder, and the per-key orchestrator loop of
`main_inner` (skip check, page loop, page-size validation, id seeding,
per-key commit).
-/

namespace Telefonbuch

/-- The schema columns of `telefonbuch_columns` (dict keys, in order). -/
def telefonbuchColumns : List String :=
  [ "name0", "firstname0", "nameextension0", "profession0",
    "nameconnection1", "name1", "firstname1", "nameextension1", "profession1",
    "nameconnection2", "name2", "firstname2", "nameextension2", "profession2",
    "extendedtext", "street", "housenumber", "zipcode", "city",
    "areacode", "phonenumber", "callrate",
    "commercial", "webadress", "advertising", "recordtype" ]

/-- An `<address>` XML element: its direct non-address sub-element texts
(as an association list, first match wins like `elem.find`), and its direct
child `<address>` elements in document order.  A sub-element whose text is
`None` in Python is represented by the empty string (both are falsy under
`elem.text`). -/
inductive AddressElem where
  | node (fields : List (String × String)) (children : List AddressElem)
deriving Repr

/-- `address_elem.find(col)` followed by taking `.text`: the text of the
first direct sub-element named `col`, if any. -/
def findField (fields : List (String × String)) (col : String) : Option String :=
  (fields.find? (fun p => p.1 == col)).map (fun p => p.2)

/-- Python's `str.strip()`: drop leading and trailing whitespace. -/
def pyStrip (s : String) : String :=
  ⟨((s.data.dropWhile Char.isWhitespace).reverse.dropWhile
      Char.isWhitespace).reverse⟩

/-- The value stored for one schema column by `parse_address`:
`elem.text.strip()` if the element exists and its text is truthy
(non-empty), else `None`. -/
def fieldValue (fields : List (String × String)) (col : String) : Option String :=
  match findField fields col with
  | none => none
  | some t => if t = "" then none else some (pyStrip t)

/-- One flat row produced by `parse_address`: the predicted `id`, the
`parent_id` link, and the extracted schema columns. -/
structure Row where
  id : Nat
  parent_id : Option Nat
  cols : List (String × Option String)
deriving Repr, DecidableEq

/-- The row dict built for one `<address>` element
(`row = {"id": current_id, "parent_id": parent_id}` plus one entry per
schema column). -/
def mkRow (currentId : Nat) (parentId : Option Nat)
    (fields : List (String × String)) : Row :=
  { id := currentId, parent_id := parentId,
    cols := telefonbuchColumns.map (fun col => (col, fieldValue fields col)) }

mutual

/-- `parse_address(address_elem, next_id_counter, parent_id, rows)`:
take the next id, emit this element's row, then recurse into the direct
child `<address>` elements with `parent_id = current_id`.  The counter is
threaded explicitly; the returned `Nat` is the counter value after the
whole subtree. -/
def parse_address (e : AddressElem) (counter : Nat) (parentId : Option Nat) :
    List Row × Nat :=
  match e with
  | .node fields children =>
    let res := parseAddressList children (counter + 1) (some counter)
    (mkRow counter parentId fields :: res.1, res.2)

/-- The `for child in address_elem.findall("address")` loop (also used for
the top-level `for addr in addresses` loop, with `parentId = none`):
parse each element in order, threading the id counter. -/
def parseAddressList (es : List AddressElem) (counter : Nat)
    (parentId : Option Nat) : List Row × Nat :=
  match es with
  | [] => ([], counter)
  | e :: rest =>
    let res := parse_address e counter parentId
    let res' := parseAddressList rest res.2 parentId
    (res.1 ++ res'.1, res'.2)

end

/-! ### Specification-side view of the flattener (for the refinement claim)

The spec describes flattening as: assign pre-order ids first (each node gets
its id before any of its children are visited), then emit the records
depth-first pre-order, a child's `parent_id` being its immediate parent's
assigned id and a top-level node's `parent_id` being null. -/

/-- An address tree annotated with its assigned id (spec-side view). -/
inductive IdTree where
  | node (id : Nat) (fields : List (String × String)) (children : List IdTree)
deriving Repr

mutual

/-- Modelled from the spec: assign ids in depth-first pre-order, each node
receiving the next id before its children are visited. -/
def assignIds (e : AddressElem) (c : Nat) : IdTree × Nat :=
  match e with
  | .node fields children =>
    let res := assignIdsList children (c + 1)
    (.node c fields res.1, res.2)

/-- Modelled from the spec: pre-order id assignment over a forest. -/
def assignIdsList (es : List AddressElem) (c : Nat) : List IdTree × Nat :=
  match es with
  | [] => ([], c)
  | e :: rest =>
    let res := assignIds e c
    let res' := assignIdsList rest res.2
    (res.1 :: res'.1, res'.2)

end

mutual

/-- Modelled from the spec: emit the records of an annotated tree
depth-first pre-order; the node's own record comes first and carries the
given `parent_id`; each child record carries this node's id. -/
def flattenTree (t : IdTree) (parentId : Option Nat) : List Row :=
  match t with
  | .node i fields children =>
    mkRow i parentId fields :: flattenTreeList children (some i)

/-- Modelled from the spec: pre-order record emission over a forest. -/
def flattenTreeList (ts : List IdTree) (parentId : Option Nat) : List Row :=
  match ts with
  | [] => []
  | t :: rest => flattenTree t parentId ++ flattenTreeList rest parentId

end

/-! ### The per-page SQL-row builder (`sql_rows` loop of `main_inner`) -/

/-- One row as passed to `INSERT INTO telefonbuch_scrape`, in the order of
`insert_columns`: `query_name`, `query_offset`, `query_child_num`, `id`,
`parent_id`, then the schema columns. -/
structure SqlRow where
  query_name : String
  query_offset : Nat
  query_child_num : Nat
  id : Nat
  parent_id : Option Nat
  cols : List (String × Option String)
deriving Repr, DecidableEq

/-- The `for row_idx, row in enumerate(all_rows)` loop of `main_inner`:
a top-level row (null `parent_id`) resets `query_child_num` to 0 and, after
being appended, advances `row_query_offset` by 1; a child row increments
`query_child_num` and leaves the offset unchanged.  Returns the built rows
and the final `row_query_offset`. -/
def buildSqlRows (qn : String) (rows : List Row) (off : Nat) (childNum : Nat) :
    List SqlRow × Nat :=
  match rows with
  | [] => ([], off)
  | r :: rest =>
    match r.parent_id with
    | none =>
      let res := buildSqlRows qn rest (off + 1) 0
      (⟨qn, off, 0, r.id, r.parent_id, r.cols⟩ :: res.1, res.2)
    | some p =>
      let res := buildSqlRows qn rest off (childNum + 1)
      (⟨qn, off, childNum + 1, r.id, some p, r.cols⟩ :: res.1, res.2)

/-! ### The query-key enumerator -/

/-- `c in string.digits`. -/
def inStringDigits (c : Char) : Bool :=
  "0123456789".toList.contains c

/-- `query_name[0] in string.digits`, on the character list of the key. -/
def startsWithDigit : List Char → Bool
  | [] => false
  | c :: _ => inStringDigits c

/-- `itertools.product(alphabet, repeat=n)` in its documented order: the
leftmost position varies slowest. -/
def productRepeat (alphabet : List Char) : Nat → List (List Char)
  | 0 => [[]]
  | n + 1 =>
    alphabet.flatMap (fun c => (productRepeat alphabet n).map (fun cs => c :: cs))

/-- The `query_name_list` construction of `main_inner`: join each tuple of
`itertools.product(query_name_alphabet, repeat=query_name_length)` into a
string and drop it when its first character is a digit. -/
def queryNameList (alphabet : List Char) (len : Nat) : List String :=
  ((productRepeat alphabet len).map (fun cs => String.mk cs)).filter
    (fun s => !startsWithDigit s.data)

/-- Modelled from the spec: the full Cartesian product of the alphabet at
length 2, in the lexicographic product order of the alphabet. -/
def specProductOrder2 (alphabet : List Char) : List String :=
  alphabet.flatMap (fun c1 => alphabet.map (fun c2 => String.mk [c1, c2]))

/-! ### The orchestrator (`main_inner` per-key loop)

The SQLite transaction is modelled explicitly: `committed` holds the rows
made durable by `db_con.commit()`, `pending` the rows inserted since the
last `BEGIN EXCLUSIVE`.  Queries on the open connection (`MAX(id)`) see
`committed ++ pending`; an abort (uncaught `AssertionError` or
`sys.exit(1)`) discards `pending`.  Network traffic is abstracted by a
`fetch` oracle giving the response for each `(query_name, query_offset)`
search request. -/

/-- `results_per_page`, after the override to the server's fixed size 15. -/
def results_per_page : Nat := 15

/-- Abstract content of one search response: the `<hitcount>` tag when
present, the `<perpage>` tag when present, and the `.//entries/address`
elements. -/
structure PageResponse where
  hitcount : Option Nat
  perpage : Option Nat
  entries : List AddressElem

/-- The fatal errors of the per-key loop: `sys.exit(1)` when `<hitcount>`
is missing, `AssertionError` when a reported page size differs from the
configured one. -/
inductive ScrapeError where
  | missingHitcount (qn : String) (off : Nat)
  | pageSizeMismatch (actual expected : Nat)
deriving Repr, DecidableEq

/-- Outcome of a run prefix: the committed store and the log of issued
search requests `(query_name, query_offset)`.  On abort the open
transaction is rolled back, so only the committed store survives. -/
inductive RunOutcome where
  | ok (committed : List SqlRow) (requests : List (String × Nat))
  | aborted (committed : List SqlRow) (requests : List (String × Nat))
      (e : ScrapeError)

/-- Whether the outcome is an abort. -/
def RunOutcome.isAborted : RunOutcome → Bool
  | .ok _ _ => false
  | .aborted _ _ _ => true

/-- The committed store of an outcome. -/
def RunOutcome.committed : RunOutcome → List SqlRow
  | .ok c _ => c
  | .aborted c _ _ => c

/-- The request log of an outcome. -/
def RunOutcome.requests : RunOutcome → List (String × Nat)
  | .ok _ r => r
  | .aborted _ r _ => r

/-- `SELECT COALESCE(MAX(id), 0) FROM telefonbuch_scrape`, over the rows
visible inside the open transaction. -/
def maxId (rows : List SqlRow) : Nat :=
  match rows with
  | [] => 0
  | r :: rest => max r.id (maxId rest)

/-- `SELECT 1 FROM telefonbuch_scrape WHERE query_name = ?` returns a row:
the skip check of `main_inner`. -/
def hasKey (rows : List SqlRow) (qn : String) : Bool :=
  rows.any (fun r => r.query_name == qn)

/-- One page-loop iteration after its response is available: seed the id
counter from `MAX(id)` over the rows visible in the open transaction,
validate the reported page size when the `<perpage>` tag is present
(`assert actual_results_per_page == results_per_page`), flatten the page's
addresses and append the built rows to the pending batch. -/
def processOnePage (qn : String) (off : Nat) (committed pending : List SqlRow)
    (resp : PageResponse) : Except ScrapeError (List SqlRow) :=
  let nextId := maxId (committed ++ pending) + 1
  match resp.perpage with
  | some p =>
    if p = results_per_page then
      .ok (pending ++ (buildSqlRows qn (parseAddressList resp.entries nextId none).1 off 0).1)
    else
      .error (.pageSizeMismatch p results_per_page)
  | none =>
    .ok (pending ++ (buildSqlRows qn (parseAddressList resp.entries nextId none).1 off 0).1)

/-- `range(0, num_results + 1, results_per_page)`: the page offsets for a
key reporting `n` results. -/
def pageOffsets (n : Nat) : List Nat :=
  (List.range (n / results_per_page + 1)).map (fun i => i * results_per_page)

/-- The page loop from its second iteration on (`loop_idx > 0`): re-fetch
the page at each remaining offset (aborting when its `<hitcount>` tag is
missing), process it, and after the last page commit the pending batch. -/
def goPages (fetch : String → Nat → PageResponse) (qn : String)
    (committed : List SqlRow) :
    List Nat → List SqlRow → List (String × Nat) → RunOutcome
  | [], pending, reqs => .ok (committed ++ pending) reqs
  | off :: rest, pending, reqs =>
    let resp := fetch qn off
    let reqs' := reqs ++ [(qn, off)]
    match resp.hitcount with
    | none => .aborted committed reqs' (.missingHitcount qn off)
    | some _ =>
      match processOnePage qn off committed pending resp with
      | .error e => .aborted committed reqs' e
      | .ok pending' => goPages fetch qn committed rest pending' reqs'

/-- The body of `for query_idx, query_name in enumerate(query_name_list)`
for one key: skip when the key already has rows; otherwise fetch page 0
(abort when its `<hitcount>` is missing, skip the key when it reports 0
results), process page 0 with an empty pending batch, run the remaining
page offsets, and commit. -/
def processKey (fetch : String → Nat → PageResponse) (qn : String)
    (committed : List SqlRow) (reqs : List (String × Nat)) : RunOutcome :=
  if hasKey committed qn then .ok committed reqs
  else
    let resp0 := fetch qn 0
    let reqs0 := reqs ++ [(qn, 0)]
    match resp0.hitcount with
    | none => .aborted committed reqs0 (.missingHitcount qn 0)
    | some n =>
      if n = 0 then .ok committed reqs0
      else
        match processOnePage qn 0 committed [] resp0 with
        | .error e => .aborted committed reqs0 e
        | .ok pending =>
          goPages fetch qn committed ((pageOffsets n).drop 1) pending reqs0

/-- The whole key loop of `main_inner`: process each key in order, stopping
at the first abort. -/
def runKeys (fetch : String → Nat → PageResponse) :
    List String → List SqlRow → List (String × Nat) → RunOutcome
  | [], committed, reqs => .ok committed reqs
  | qn :: rest, committed, reqs =>
    match processKey fetch qn committed reqs with
    | .ok committed' reqs' => runKeys fetch rest committed' reqs'
    | .aborted c r e => .aborted c r e

/-! ### Lemmas about `parse_address` -/

mutual

/-- The id counter after a subtree advances by exactly the number of rows
the subtree emitted. -/
theorem parse_counter (e : AddressElem) (c : Nat) (pid : Option Nat) :
    (parse_address e c pid).2 = c + (parse_address e c pid).1.length := by
  match e with
  | .node fields children =>
    simp only [parse_address, List.length_cons]
    rw [parseList_counter children (c + 1) (some c)]
    omega

/-- Forest version of `parse_counter`. -/
theorem parseList_counter (es : List AddressElem) (c : Nat) (pid : Option Nat) :
    (parseAddressList es c pid).2 = c + (parseAddressList es c pid).1.length := by
  match es with
  | [] => simp [parseAddressList]
  | e :: rest =>
    simp only [parseAddressList, List.length_append]
    rw [parseList_counter rest (parse_address e c pid).2 pid, parse_counter e c pid]
    omega

end

/-- Two adjacent runs of consecutive integers concatenate to one run. -/
theorem range'_glue (c m n : Nat) :
    List.range' c m ++ List.range' (c + m) n = List.range' c (m + n) := by
  have h := List.range'_append c m n 1
  simp only [one_mul, Nat.add_comm n m] at h
  exact h

mutual

/-- The ids of the rows of a subtree are the consecutive integers starting
at the counter value: ids are assigned in pre-order visiting order. -/
theorem parse_ids (e : AddressElem) (c : Nat) (pid : Option Nat) :
    (parse_address e c pid).1.map Row.id
      = List.range' c (parse_address e c pid).1.length := by
  match e with
  | .node fields children =>
    simp only [parse_address, List.map_cons, List.length_cons]
    rw [show List.range' c ((parseAddressList children (c + 1) (some c)).1.length + 1)
        = c :: List.range' (c + 1) (parseAddressList children (c + 1) (some c)).1.length
        from rfl]
    rw [parseList_ids children (c + 1) (some c)]
    rfl

/-- Forest version of `parse_ids`. -/
theorem parseList_ids (es : List AddressElem) (c : Nat) (pid : Option Nat) :
    (parseAddressList es c pid).1.map Row.id
      = List.range' c (parseAddressList es c pid).1.length := by
  match es with
  | [] => simp [parseAddressList]
  | e :: rest =>
    have h1 := parse_ids e c pid
    have h2 := parseList_ids rest (parse_address e c pid).2 pid
    have hc := parse_counter e c pid
    simp only [parseAddressList, List.map_append, List.length_append]
    rw [h1, h2, hc]
    exact range'_glue c (parse_address e c pid).1.length
      (parseAddressList rest (c + (parse_address e c pid).1.length) pid).1.length

end

mutual

/-- `parse_address` refines the two-phase spec view: assign pre-order ids,
then flatten pre-order with parent links. -/
theorem parse_eq_flatten (e : AddressElem) (c : Nat) (pid : Option Nat) :
    parse_address e c pid
      = (flattenTree (assignIds e c).1 pid, (assignIds e c).2) := by
  match e with
  | .node fields children =>
    simp only [parse_address, assignIds, flattenTree,
      parseList_eq_flatten children (c + 1) (some c)]

/-- Forest version of `parse_eq_flatten`. -/
theorem parseList_eq_flatten (es : List AddressElem) (c : Nat) (pid : Option Nat) :
    parseAddressList es c pid
      = (flattenTreeList (assignIdsList es c).1 pid, (assignIdsList es c).2) := by
  match es with
  | [] => simp [parseAddressList, assignIdsList, flattenTreeList]
  | e :: rest =>
    simp only [parseAddressList, assignIdsList, flattenTreeList,
      parse_eq_flatten e c pid]
    simp only [parseList_eq_flatten rest (assignIds e c).2 pid]

end

mutual

/-- Below a parent, every row of the subtree has a non-null `parent_id`. -/
theorem parse_no_top (e : AddressElem) (c : Nat) (p : Nat) :
    (parse_address e c (some p)).1.countP (fun r => r.parent_id.isNone) = 0 := by
  match e with
  | .node fields children =>
    simp only [parse_address, List.countP_cons, mkRow, Option.isNone_some]
    simp only [parseList_no_top children (c + 1) c]
    simp

/-- Forest version of `parse_no_top`. -/
theorem parseList_no_top (es : List AddressElem) (c : Nat) (p : Nat) :
    (parseAddressList es c (some p)).1.countP (fun r => r.parent_id.isNone) = 0 := by
  match es with
  | [] => simp [parseAddressList]
  | e :: rest =>
    simp only [parseAddressList, List.countP_append]
    simp only [parse_no_top e c p,
      parseList_no_top rest (parse_address e c (some p)).2 p]

end

/-- Flattening a page's top-level elements yields exactly one null-parent
row per top-level element. -/
theorem parseList_top_count (es : List AddressElem) (c : Nat) :
    (parseAddressList es c none).1.countP (fun r => r.parent_id.isNone)
      = es.length := by
  match es with
  | [] => simp [parseAddressList]
  | e :: rest =>
    match e with
    | .node fields children =>
      simp only [parseAddressList, parse_address, List.countP_append,
        List.countP_cons, mkRow, Option.isNone_none]
      simp only [parseList_no_top children (c + 1) c]
      simp only [parseList_top_count rest
        (parseAddressList children (c + 1) (some c)).2]
      simp only [List.length_cons, if_true]
      omega

/-! ### Lemmas about `buildSqlRows` -/

/-- The builder keeps the flattened rows' ids, in order. -/
theorem buildSqlRows_ids (qn : String) (rows : List Row) (off cn : Nat) :
    (buildSqlRows qn rows off cn).1.map SqlRow.id = rows.map Row.id := by
  induction rows generalizing off cn with
  | nil => rfl
  | cons r rest ih =>
    cases h : r.parent_id with
    | none => simp only [buildSqlRows, h, List.map_cons, ih]
    | some p => simp only [buildSqlRows, h, List.map_cons, ih]

/-- The builder keeps the flattened rows' parent links, in order. -/
theorem buildSqlRows_parents (qn : String) (rows : List Row) (off cn : Nat) :
    (buildSqlRows qn rows off cn).1.map SqlRow.parent_id
      = rows.map Row.parent_id := by
  induction rows generalizing off cn with
  | nil => rfl
  | cons r rest ih =>
    cases h : r.parent_id with
    | none => simp only [buildSqlRows, h, List.map_cons, ih]
    | some p => simp only [buildSqlRows, h, List.map_cons, ih]

/-- The builder emits one SQL row per flattened row. -/
theorem buildSqlRows_length (qn : String) (rows : List Row) (off cn : Nat) :
    (buildSqlRows qn rows off cn).1.length = rows.length := by
  induction rows generalizing off cn with
  | nil => rfl
  | cons r rest ih =>
    cases h : r.parent_id with
    | none => simp only [buildSqlRows, h, List.length_cons, ih]
    | some p => simp only [buildSqlRows, h, List.length_cons, ih]

/-- The final `row_query_offset` is the initial one plus the number of
null-parent (top-level) rows. -/
theorem buildSqlRows_offset (qn : String) (rows : List Row) (off cn : Nat) :
    (buildSqlRows qn rows off cn).2
      = off + rows.countP (fun r => r.parent_id.isNone) := by
  induction rows generalizing off cn with
  | nil => simp [buildSqlRows]
  | cons r rest ih =>
    cases h : r.parent_id with
    | none =>
      simp [buildSqlRows, h, List.countP_cons, ih]
      omega
    | some p =>
      simp [buildSqlRows, h, List.countP_cons, ih]

/-! ### Lemmas about `maxId` -/

/-- `maxId` distributes over concatenation. -/
theorem maxId_append (a b : List SqlRow) :
    maxId (a ++ b) = max (maxId a) (maxId b) := by
  induction a with
  | nil => simp [maxId]
  | cons r rest ih =>
    show max r.id (maxId (rest ++ b)) = max (max r.id (maxId rest)) (maxId b)
    rw [ih]
    omega

/-- `maxId` of a batch whose ids are the consecutive run starting at
`s + 1`. -/
theorem maxId_run (rows : List SqlRow) (s k : Nat)
    (h : rows.map SqlRow.id = List.range' (s + 1) k) :
    maxId rows = if k = 0 then 0 else s + k := by
  induction rows generalizing s k with
  | nil =>
    have : k = 0 := by
      by_contra hk
      cases k with
      | zero => exact hk rfl
      | succ k' => simp [List.range'] at h
    simp [maxId, this]
  | cons r rest ih =>
    cases k with
    | zero => simp [List.range'] at h
    | succ k' =>
      have hcons : r.id :: rest.map SqlRow.id
          = (s + 1) :: List.range' (s + 2) k' := h
      have hid : r.id = s + 1 := (List.cons.injEq _ _ _ _ ▸ hcons).1
      have htail : rest.map SqlRow.id = List.range' (s + 1 + 1) k' := by
        have := (List.cons.injEq _ _ _ _ ▸ hcons).2
        simpa using this
      have := ih (s + 1) k' htail
      simp only [maxId, hid, this]
      by_cases hk : k' = 0
      · simp [hk]
      · simp only [hk, if_false]
        simp only [Nat.succ_ne_zero, if_false]
        omega

/-- Visible `MAX(id)` after inserting a pending batch whose ids continue
the committed store's ids. -/
theorem maxId_committed_pending (committed pending : List SqlRow)
    (h : pending.map SqlRow.id
        = List.range' (maxId committed + 1) pending.length) :
    maxId (committed ++ pending) = maxId committed + pending.length := by
  rw [maxId_append]
  have := maxId_run pending (maxId committed) pending.length h
  by_cases hk : pending.length = 0 <;> simp [hk] at this ⊢ <;> omega

/-! ### Lemmas about the orchestrator -/

/-- A key present in the store stays present as rows are appended. -/
theorem hasKey_append_left (a b : List SqlRow) (qn : String)
    (h : hasKey a qn = true) : hasKey (a ++ b) qn = true := by
  simp only [hasKey, List.any_append, Bool.or_eq_true]
  exact Or.inl h

/-- A successful page step appends exactly the page's built rows, with the
id counter seeded from the visible `MAX(id)`. -/
theorem processOnePage_ok_shape (qn : String) (off : Nat)
    (committed pending : List SqlRow) (resp : PageResponse)
    (pending' : List SqlRow)
    (h : processOnePage qn off committed pending resp = .ok pending') :
    pending' = pending ++ (buildSqlRows qn
      (parseAddressList resp.entries (maxId (committed ++ pending) + 1) none).1
      off 0).1 := by
  cases hp : resp.perpage with
  | none =>
    simp only [processOnePage, hp] at h
    exact (Except.ok.injEq _ _ ▸ h).symm
  | some p =>
    simp only [processOnePage, hp] at h
    by_cases hpp : p = results_per_page
    · rw [if_pos hpp] at h
      exact (Except.ok.injEq _ _ ▸ h).symm
    · rw [if_neg hpp] at h
      exact absurd h (by simp)

/-- The page loop never exposes pending rows on an abort. -/
theorem goPages_aborted_committed (fetch : String → Nat → PageResponse)
    (qn : String) (committed : List SqlRow) (offs : List Nat) :
    ∀ pending reqs c' r' e,
      goPages fetch qn committed offs pending reqs = .aborted c' r' e →
      c' = committed := by
  induction offs with
  | nil =>
    intro pending reqs c' r' e h
    simp [goPages] at h
  | cons off rest ih =>
    intro pending reqs c' r' e h
    simp only [goPages] at h
    cases hh : (fetch qn off).hitcount with
    | none =>
      rw [hh] at h
      cases h
      rfl
    | some m =>
      rw [hh] at h
      cases hp : processOnePage qn off committed pending (fetch qn off) with
      | error e2 =>
        rw [hp] at h
        cases h
        rfl
      | ok pending2 =>
        rw [hp] at h
        exact ih pending2 _ c' r' e h

/-- A completed page loop commits the initial store plus a batch. -/
theorem goPages_ok_extends (fetch : String → Nat → PageResponse)
    (qn : String) (committed : List SqlRow) (offs : List Nat) :
    ∀ pending reqs c' r',
      goPages fetch qn committed offs pending reqs = .ok c' r' →
      ∃ newRows, c' = committed ++ newRows := by
  induction offs with
  | nil =>
    intro pending reqs c' r' h
    simp only [goPages] at h
    exact ⟨pending, ((RunOutcome.ok.injEq _ _ _ _ ▸ h).1).symm⟩
  | cons off rest ih =>
    intro pending reqs c' r' h
    simp only [goPages] at h
    cases hh : (fetch qn off).hitcount with
    | none =>
      rw [hh] at h
      cases h
    | some m =>
      rw [hh] at h
      cases hp : processOnePage qn off committed pending (fetch qn off) with
      | error e2 =>
        rw [hp] at h
        cases h
      | ok pending2 =>
        rw [hp] at h
        exact ih pending2 _ c' r' h

/-- Every request the page loop adds to the log carries the current key. -/
theorem goPages_requests_shape (fetch : String → Nat → PageResponse)
    (qn : String) (committed : List SqlRow) (offs : List Nat) :
    ∀ pending reqs,
      ∃ new, (goPages fetch qn committed offs pending reqs).requests
          = reqs ++ new
        ∧ ∀ x ∈ new, x.1 = qn := by
  induction offs with
  | nil =>
    intro pending reqs
    exact ⟨[], by simp [goPages, RunOutcome.requests], by simp⟩
  | cons off rest ih =>
    intro pending reqs
    simp only [goPages]
    cases hh : (fetch qn off).hitcount with
    | none =>
      refine ⟨[(qn, off)], by simp [RunOutcome.requests], by simp⟩
    | some m =>
      cases hp : processOnePage qn off committed pending (fetch qn off) with
      | error e2 =>
        refine ⟨[(qn, off)], by simp [RunOutcome.requests], by simp⟩
      | ok pending2 =>
        obtain ⟨new2, hr, hnew⟩ := ih pending2 (reqs ++ [(qn, off)])
        refine ⟨(qn, off) :: new2, ?_, ?_⟩
        · rw [hr]
          simp
        · intro x hx
          cases hx with
          | head => rfl
          | tail _ hx2 => exact hnew x hx2

/-- Ids of one page's built rows: the consecutive run starting at the
seeded counter. -/
theorem pageRows_ids (qn : String) (off nid : Nat) (entries : List AddressElem) :
    (buildSqlRows qn (parseAddressList entries nid none).1 off 0).1.map SqlRow.id
      = List.range' nid
        (buildSqlRows qn (parseAddressList entries nid none).1 off 0).1.length := by
  rw [buildSqlRows_ids, buildSqlRows_length, parseList_ids]

/-- Invariant of the page loop: if the pending batch's ids form the
consecutive run continuing the committed store's `MAX(id)`, then on success
the whole committed result is the old store plus a batch whose ids form
that consecutive run. -/
theorem goPages_ok_ids (fetch : String → Nat → PageResponse)
    (qn : String) (committed : List SqlRow) (offs : List Nat) :
    ∀ pending reqs c' r',
      pending.map SqlRow.id
          = List.range' (maxId committed + 1) pending.length →
      goPages fetch qn committed offs pending reqs = .ok c' r' →
      ∃ newRows, c' = committed ++ newRows ∧
        newRows.map SqlRow.id
          = List.range' (maxId committed + 1) newRows.length := by
  induction offs with
  | nil =>
    intro pending reqs c' r' hinv h
    simp only [goPages] at h
    exact ⟨pending, ((RunOutcome.ok.injEq _ _ _ _ ▸ h).1).symm, hinv⟩
  | cons off rest ih =>
    intro pending reqs c' r' hinv h
    simp only [goPages] at h
    cases hh : (fetch qn off).hitcount with
    | none =>
      rw [hh] at h
      cases h
    | some m =>
      rw [hh] at h
      cases hp : processOnePage qn off committed pending (fetch qn off) with
      | error e2 =>
        rw [hp] at h
        cases h
      | ok pending2 =>
        rw [hp] at h
        have hshape := processOnePage_ok_shape qn off committed pending
          (fetch qn off) pending2 hp
        have hmax : maxId (committed ++ pending)
            = maxId committed + pending.length :=
          maxId_committed_pending committed pending hinv
        have hinv2 : pending2.map SqlRow.id
            = List.range' (maxId committed + 1) pending2.length := by
          rw [hshape, List.map_append, List.length_append, hinv,
            pageRows_ids qn off (maxId (committed ++ pending) + 1)
              (fetch qn off).entries, hmax]
          have := range'_glue (maxId committed + 1) pending.length
            (buildSqlRows qn (parseAddressList (fetch qn off).entries
              (maxId committed + pending.length + 1) none).1 off 0).1.length
          rw [show maxId committed + 1 + pending.length
              = maxId committed + pending.length + 1 from by omega] at this
          exact this
        exact ih pending2 _ c' r' hinv2 h

/-- A key already present in the store is skipped: no request, no change. -/
theorem processKey_skip (fetch : String → Nat → PageResponse) (qn : String)
    (committed : List SqlRow) (reqs : List (String × Nat))
    (h : hasKey committed qn = true) :
    processKey fetch qn committed reqs = .ok committed reqs := by
  simp [processKey, h]

/-- Every request `processKey` adds to the log carries its own key. -/
theorem processKey_requests_shape (fetch : String → Nat → PageResponse)
    (qn : String) (committed : List SqlRow) (reqs : List (String × Nat)) :
    ∃ new, (processKey fetch qn committed reqs).requests = reqs ++ new
      ∧ ∀ x ∈ new, x.1 = qn := by
  by_cases h : hasKey committed qn = true
  · exact ⟨[], by simp [processKey_skip fetch qn committed reqs h,
      RunOutcome.requests], by simp⟩
  · have hf : hasKey committed qn = false := by
      simpa using h
    simp only [processKey, hf, Bool.false_eq_true, if_false]
    cases hh : (fetch qn 0).hitcount with
    | none =>
      simp only [hh]
      exact ⟨[(qn, 0)], by simp [RunOutcome.requests], by simp⟩
    | some n =>
      simp only [hh]
      by_cases hn : n = 0
      · simp only [hn, if_pos rfl]
        exact ⟨[(qn, 0)], by simp [RunOutcome.requests], by simp⟩
      · rw [if_neg hn]
        cases hp : processOnePage qn 0 committed [] (fetch qn 0) with
        | error e2 =>
          exact ⟨[(qn, 0)], by simp [RunOutcome.requests], by simp⟩
        | ok pending =>
          obtain ⟨new2, hr, hnew⟩ := goPages_requests_shape fetch qn committed
            ((pageOffsets n).drop 1) pending (reqs ++ [(qn, 0)])
          refine ⟨(qn, 0) :: new2, ?_, ?_⟩
          · rw [hr]
            simp
          · intro x hx
            cases hx with
            | head => rfl
            | tail _ hx2 => exact hnew x hx2

/-- On success, `processKey` only appends rows to the store. -/
theorem processKey_ok_extends (fetch : String → Nat → PageResponse)
    (qn : String) (committed : List SqlRow) (reqs : List (String × Nat))
    (c' : List SqlRow) (r' : List (String × Nat))
    (h : processKey fetch qn committed reqs = .ok c' r') :
    ∃ newRows, c' = committed ++ newRows := by
  by_cases hk : hasKey committed qn = true
  · rw [processKey_skip fetch qn committed reqs hk] at h
    exact ⟨[], by simpa using ((RunOutcome.ok.injEq _ _ _ _ ▸ h).1).symm⟩
  · have hf : hasKey committed qn = false := by simpa using hk
    simp only [processKey, hf, Bool.false_eq_true, if_false] at h
    cases hh : (fetch qn 0).hitcount with
    | none =>
      simp only [hh] at h
      cases h
    | some n =>
      simp only [hh] at h
      by_cases hn : n = 0
      · rw [if_pos hn] at h
        exact ⟨[], by simpa using ((RunOutcome.ok.injEq _ _ _ _ ▸ h).1).symm⟩
      · rw [if_neg hn] at h
        cases hp : processOnePage qn 0 committed [] (fetch qn 0) with
        | error e2 =>
          rw [hp] at h
          cases h
        | ok pending =>
          rw [hp] at h
          exact goPages_ok_extends fetch qn committed _ pending _ c' r' h

/-- An aborting `processKey` leaves the committed store unchanged. -/
theorem processKey_aborted_committed (fetch : String → Nat → PageResponse)
    (qn : String) (committed : List SqlRow) (reqs : List (String × Nat))
    (c' : List SqlRow) (r' : List (String × Nat)) (e : ScrapeError)
    (h : processKey fetch qn committed reqs = .aborted c' r' e) :
    c' = committed := by
  by_cases hk : hasKey committed qn = true
  · rw [processKey_skip fetch qn committed reqs hk] at h
    cases h
  · have hf : hasKey committed qn = false := by simpa using hk
    simp only [processKey, hf, Bool.false_eq_true, if_false] at h
    cases hh : (fetch qn 0).hitcount with
    | none =>
      simp only [hh] at h
      cases h
      rfl
    | some n =>
      simp only [hh] at h
      by_cases hn : n = 0
      · rw [if_pos hn] at h
        cases h
      · rw [if_neg hn] at h
        cases hp : processOnePage qn 0 committed [] (fetch qn 0) with
        | error e2 =>
          rw [hp] at h
          cases h
          rfl
        | ok pending =>
          rw [hp] at h
          exact goPages_aborted_committed fetch qn committed _ pending _ c' r' e h

/-- A run started with a key already in the store never logs a search
request for that key. -/
theorem runKeys_no_request (fetch : String → Nat → PageResponse)
    (keys : List String) :
    ∀ committed reqs key, hasKey committed key = true →
      (∀ x ∈ reqs, x.1 ≠ key) →
      ∀ x ∈ (runKeys fetch keys committed reqs).requests, x.1 ≠ key := by
  induction keys with
  | nil =>
    intro committed reqs key hk hreqs x hx
    simp only [runKeys, RunOutcome.requests] at hx
    exact hreqs x hx
  | cons qn rest ih =>
    intro committed reqs key hk hreqs x hx
    simp only [runKeys] at hx
    obtain ⟨new, hr, hnew⟩ := processKey_requests_shape fetch qn committed reqs
    cases hpk : processKey fetch qn committed reqs with
    | ok c' r' =>
      rw [hpk] at hx hr
      have hr' : r' = reqs ++ new := hr
      obtain ⟨new2, hc⟩ := processKey_ok_extends fetch qn committed reqs c' r' hpk
      have hk' : hasKey c' key = true := by
        rw [hc]
        exact hasKey_append_left committed new2 key hk
      refine ih c' r' key hk' ?_ x hx
      intro y hy
      rw [hr'] at hy
      rcases List.mem_append.mp hy with h1 | h2
      · exact hreqs y h1
      · by_cases hqn : qn = key
        · exfalso
          have hskip := processKey_skip fetch qn committed reqs (hqn ▸ hk)
          rw [hskip] at hpk
          have : r' = reqs := (RunOutcome.ok.injEq _ _ _ _ ▸ hpk).2.symm
          rw [this] at hr'
          have : new = [] := by
            have := hr'.symm
            simpa using this
          rw [this] at h2
          simp at h2
        · rw [hnew y h2]
          exact hqn
    | aborted c r e =>
      rw [hpk] at hx hr
      have hr' : r = reqs ++ new := hr
      simp only [RunOutcome.requests] at hx
      rw [hr'] at hx
      rcases List.mem_append.mp hx with h1 | h2
      · exact hreqs x h1
      · by_cases hqn : qn = key
        · exfalso
          have hskip := processKey_skip fetch qn committed reqs (hqn ▸ hk)
          rw [hskip] at hpk
          cases hpk
        · rw [hnew x h2]
          exact hqn

/-! ### Lemmas about the enumerator -/

/-- Binding each element to a singleton is mapping. -/
theorem flatMap_singleton_map {α β : Type} (f : α → β) (l : List α) :
    (l.flatMap fun x => [f x]) = l.map f := by
  induction l with
  | nil => rfl
  | cons a t ih => simp only [List.flatMap_cons, List.map_cons, ih]; rfl

/-- Length-1 products are the alphabet's singletons, in order. -/
theorem productRepeat_one (A : List Char) :
    productRepeat A 1 = A.map (fun c => [c]) := by
  have h : productRepeat A 1 = A.flatMap (fun c => [[c]]) := rfl
  rw [h, flatMap_singleton_map]

/-- Length-2 products are the Cartesian square in lexicographic product
order. -/
theorem productRepeat_two (A : List Char) :
    (productRepeat A 2).map String.mk = specProductOrder2 A := by
  have h : productRepeat A 2
      = A.flatMap (fun c1 => (productRepeat A 1).map (fun cs => c1 :: cs)) := rfl
  rw [h, productRepeat_one]
  unfold specProductOrder2
  rw [List.map_flatMap]
  congr 1
  funext c1
  rw [List.map_map, List.map_map]
  rfl

/-- The page-offset list of a key always starts at offset 0
(`range(0, n + 1, results_per_page)` begins with 0). -/
theorem pageOffsets_eq_cons (n : Nat) :
    pageOffsets n = 0 :: (pageOffsets n).drop 1 := by
  unfold pageOffsets
  rw [List.range_succ_eq_map]
  simp

/-- A response is fatal for its page when its `<hitcount>` tag is missing
(`sys.exit(1)` in `get_search_results`) or its `<perpage>` tag is present
with a value differing from the configured page size (the `assert` in
`main_inner`). -/
def fatalResponse (resp : PageResponse) : Prop :=
  resp.hitcount = none ∨
    ∃ p, resp.perpage = some p ∧ p ≠ results_per_page

/-- Once a fatal page is among the remaining offsets, the page loop cannot
commit: it aborts — at that page or an earlier one — with the committed
store unchanged. -/
theorem goPages_fatal_aborts (fetch : String → Nat → PageResponse)
    (qn : String) (committed : List SqlRow) (offs : List Nat) :
    ∀ pending reqs off, off ∈ offs → fatalResponse (fetch qn off) →
      ∃ r' e, goPages fetch qn committed offs pending reqs
        = .aborted committed r' e := by
  induction offs with
  | nil =>
    intro pending reqs off hmem hbad
    simp at hmem
  | cons o rest ih =>
    intro pending reqs off hmem hbad
    simp only [goPages]
    cases hh : (fetch qn o).hitcount with
    | none =>
      exact ⟨reqs ++ [(qn, o)], .missingHitcount qn o, by simp [hh]⟩
    | some m =>
      cases hp : processOnePage qn o committed pending (fetch qn o) with
      | error e2 =>
        exact ⟨reqs ++ [(qn, o)], e2, by simp [hh, hp]⟩
      | ok pending2 =>
        rcases List.mem_cons.mp hmem with heq | hmem2
        · exfalso
          subst heq
          rcases hbad with hcount | ⟨p, hpv, hne⟩
          · rw [hcount] at hh
            cases hh
          · simp only [processOnePage, hpv] at hp
            rw [if_neg hne] at hp
            cases hp
        · obtain ⟨r', e, hres⟩ := ih pending2 (reqs ++ [(qn, o)]) off hmem2 hbad
          exact ⟨r', e, by simp [hh, hp, hres]⟩

/-- Once a key reports a nonzero result count and one of its page offsets
answers with a fatal response, `processKey` aborts and leaves the committed
store unchanged: nothing inserted for the in-progress key becomes
visible. -/
theorem processKey_fatal_page (fetch : String → Nat → PageResponse)
    (qn : String) (committed : List SqlRow) (reqs : List (String × Nat))
    (n off : Nat)
    (h1 : hasKey committed qn = false)
    (h2 : (fetch qn 0).hitcount = some n)
    (h3 : n ≠ 0)
    (h4 : off ∈ pageOffsets n)
    (hbad : fatalResponse (fetch qn off)) :
    (processKey fetch qn committed reqs).isAborted = true
      ∧ (processKey fetch qn committed reqs).committed = committed := by
  simp only [processKey, h1, Bool.false_eq_true, if_false, h2]
  rw [if_neg h3]
  rcases List.mem_cons.mp (pageOffsets_eq_cons n ▸ h4) with heq | hmem2
  · subst heq
    rcases hbad with hcount | ⟨p, hpv, hne⟩
    · rw [hcount] at h2
      cases h2
    · have hpp : processOnePage qn 0 committed [] (fetch qn 0)
          = .error (.pageSizeMismatch p results_per_page) := by
        simp only [processOnePage, hpv]
        rw [if_neg hne]
      rw [hpp]
      exact ⟨rfl, rfl⟩
  · cases hp : processOnePage qn 0 committed [] (fetch qn 0) with
    | error e2 =>
      exact ⟨rfl, rfl⟩
    | ok pending =>
      obtain ⟨r', e, hres⟩ := goPages_fatal_aborts fetch qn committed
        ((pageOffsets n).drop 1) pending (reqs ++ [(qn, 0)]) off hmem2 hbad
      constructor
      · show (goPages fetch qn committed ((pageOffsets n).drop 1) pending
            (reqs ++ [(qn, 0)])).isAborted = true
        rw [hres]
        rfl
      · show (goPages fetch qn committed ((pageOffsets n).drop 1) pending
            (reqs ++ [(qn, 0)])).committed = committed
        rw [hres]
        rfl

/-! ### Adjacency laws of the builder -/

/-- The `query_child_num` adjacency law the builder implements: a
top-level record carries 0; a child record directly following a top-level
record carries 1; a child following another child carries its
predecessor's value plus 1. -/
def childNumStep (a b : SqlRow) : Prop :=
  b.query_child_num =
    if b.parent_id.isNone then 0
    else if a.parent_id.isNone then 1 else a.query_child_num + 1

/-- The `query_offset` adjacency law the builder implements: the record
after a top-level record carries its offset plus 1; the record after a
child record carries that child's offset. -/
def offsetStep (a b : SqlRow) : Prop :=
  b.query_offset =
    if a.parent_id.isNone then a.query_offset + 1 else a.query_offset

/-- The first built row: emitted at the current offset, with
`query_child_num` 0 for a top-level row and `childNum + 1` for a child. -/
theorem buildSqlRows_head (qn : String) (r : Row) (rest : List Row)
    (off cn : Nat) :
    (buildSqlRows qn (r :: rest) off cn).1.head? =
      some ⟨qn, off, (if r.parent_id.isNone then 0 else cn + 1), r.id,
        r.parent_id, r.cols⟩ := by
  cases h : r.parent_id with
  | none => simp [buildSqlRows, h]
  | some p => simp [buildSqlRows, h]

/-- Top-level records always carry `query_child_num = 0`. -/
theorem buildSqlRows_top_zero (qn : String) (rows : List Row) :
    ∀ off cn, ((buildSqlRows qn rows off cn).1.all
      (fun s => !s.parent_id.isNone || (s.query_child_num == 0))) = true := by
  induction rows with
  | nil => intro off cn; rfl
  | cons r rest ih =>
    intro off cn
    cases h : r.parent_id with
    | none =>
      simp only [buildSqlRows, h, List.all_cons, Bool.and_eq_true]
      exact ⟨by simp, ih (off + 1) 0⟩
    | some p =>
      simp only [buildSqlRows, h, List.all_cons, Bool.and_eq_true]
      exact ⟨by simp, ih off (cn + 1)⟩

/-- Consecutive built rows satisfy the `query_child_num` adjacency law. -/
theorem buildSqlRows_childNum_chain (qn : String) (rows : List Row) :
    ∀ off cn, List.Chain' childNumStep (buildSqlRows qn rows off cn).1 := by
  induction rows with
  | nil => intro off cn; simp [buildSqlRows]
  | cons r rest ih =>
    intro off cn
    cases h : r.parent_id with
    | none =>
      simp only [buildSqlRows, h]
      apply List.chain'_cons'.mpr
      refine ⟨?_, ih (off + 1) 0⟩
      intro s2 hs2
      cases rest with
      | nil => simp [buildSqlRows] at hs2
      | cons r2 rest2 =>
        rw [buildSqlRows_head qn r2 rest2 (off + 1) 0] at hs2
        rw [Option.mem_some_iff] at hs2
        subst hs2
        cases h2 : r2.parent_id with
        | none => simp [childNumStep, h2]
        | some q => simp [childNumStep, h2]
    | some p =>
      simp only [buildSqlRows, h]
      apply List.chain'_cons'.mpr
      refine ⟨?_, ih off (cn + 1)⟩
      intro s2 hs2
      cases rest with
      | nil => simp [buildSqlRows] at hs2
      | cons r2 rest2 =>
        rw [buildSqlRows_head qn r2 rest2 off (cn + 1)] at hs2
        rw [Option.mem_some_iff] at hs2
        subst hs2
        cases h2 : r2.parent_id with
        | none => simp [childNumStep, h2]
        | some q => simp [childNumStep, h2]

/-- Consecutive built rows satisfy the `query_offset` adjacency law. -/
theorem buildSqlRows_offset_chain (qn : String) (rows : List Row) :
    ∀ off cn, List.Chain' offsetStep (buildSqlRows qn rows off cn).1 := by
  induction rows with
  | nil => intro off cn; simp [buildSqlRows]
  | cons r rest ih =>
    intro off cn
    cases h : r.parent_id with
    | none =>
      simp only [buildSqlRows, h]
      apply List.chain'_cons'.mpr
      refine ⟨?_, ih (off + 1) 0⟩
      intro s2 hs2
      cases rest with
      | nil => simp [buildSqlRows] at hs2
      | cons r2 rest2 =>
        rw [buildSqlRows_head qn r2 rest2 (off + 1) 0] at hs2
        rw [Option.mem_some_iff] at hs2
        subst hs2
        simp [offsetStep]
    | some p =>
      simp only [buildSqlRows, h]
      apply List.chain'_cons'.mpr
      refine ⟨?_, ih off (cn + 1)⟩
      intro s2 hs2
      cases rest with
      | nil => simp [buildSqlRows] at hs2
      | cons r2 rest2 =>
        rw [buildSqlRows_head qn r2 rest2 off (cn + 1)] at hs2
        rw [Option.mem_some_iff] at hs2
        subst hs2
        simp [offsetStep]

/-- The builder emits one row per flattened row, keeping each row's kind:
the count of null-parent SQL rows equals the count of null-parent flattened
rows. -/
theorem buildSqlRows_none_count (qn : String) (rows : List Row) :
    ∀ off cn, (buildSqlRows qn rows off cn).1.countP
        (fun s => s.parent_id.isNone)
      = rows.countP (fun r => r.parent_id.isNone) := by
  induction rows with
  | nil => intro off cn; rfl
  | cons r rest ih =>
    intro off cn
    cases h : r.parent_id with
    | none => simp [buildSqlRows, h, List.countP_cons, ih]
    | some p => simp [buildSqlRows, h, List.countP_cons, ih]

/-! ## Concrete fixtures used by witnesses and counterexamples -/

/-- A committed row for key `"aa"`. -/
def demoRow : SqlRow := ⟨"aa", 0, 0, 1, none, []⟩

/-- A server returning an empty result set for every request. -/
def demoFetchEmpty : String → Nat → PageResponse :=
  fun _ _ => ⟨some 0, none, []⟩

/-- One single-record address element. -/
def demoElem : AddressElem :=
  .node [("name0", "Meier"), ("recordtype", "single")] []

/-- A server whose first page is well-formed (20 results, one record, page
size 15) but whose later pages report page size 30. -/
def demoFetchLateMismatch : String → Nat → PageResponse :=
  fun _ off =>
    if off = 0 then ⟨some 20, some 15, [demoElem]⟩
    else ⟨some 20, some 30, [demoElem]⟩

/-- A server whose first page is well-formed but whose later pages carry no
result-count tag. -/
def demoFetchLateNoCount : String → Nat → PageResponse :=
  fun _ off =>
    if off = 0 then ⟨some 20, some 15, [demoElem]⟩
    else ⟨none, some 15, []⟩

/-- A server returning one result with matching page size. -/
def demoFetchOk : String → Nat → PageResponse :=
  fun _ _ => ⟨some 1, some 15, [demoElem]⟩

/-- A server whose responses carry no page-size tag at all. -/
def demoFetchNoPerpage : String → Nat → PageResponse :=
  fun _ _ => ⟨some 1, none, [demoElem]⟩

/-- A server whose responses carry no result-count tag. -/
def demoFetchNoCount : String → Nat → PageResponse :=
  fun _ _ => ⟨none, some 15, []⟩

/-- A one-page document: one parent element with one child element. -/
def demoPage : List AddressElem := [.node [] [.node [] []]]

/-! ## Claims -/

/-- C1: for every QueryKey with at least one record already in the store at
the start of a run, the orchestrator skips the key before issuing any
network request for it — re-running issues no search request for any key
already present. -/
theorem c1_no_request_for_present_key (fetch : String → Nat → PageResponse)
    (keys : List String) (committed : List SqlRow) (key : String)
    (h : hasKey committed key = true) :
    ∀ x ∈ (runKeys fetch keys committed []).requests, x.1 ≠ key :=
  runKeys_no_request fetch keys committed [] key h (by simp)

/-- Witness for C1: a run over `["aa", "ab"]` with `"aa"` already stored
logs the request `("ab", 0)`, and that request is not for key `"aa"`. -/
theorem c1_witness :
    hasKey [demoRow] "aa" = true ∧
      ("ab", 0) ∈ (runKeys demoFetchEmpty ["aa", "ab"] [demoRow] []).requests ∧
      ("ab", (0 : Nat)).1 ≠ "aa" :=
  ⟨by decide, by decide,
    c1_no_request_for_present_key demoFetchEmpty ["aa", "ab"] [demoRow] "aa"
      (by decide) ("ab", 0) (by decide)⟩

/-- C2: if the server-reported page size in any fetched page of a key's
loop differs from the configured page size, the run aborts before the
key's batch is committed, and no record inserted for the in-progress key
becomes visible: the committed store is unchanged (the batch is
all-or-nothing, commit happening only after the key's last page). -/
theorem c2_mismatch_aborts_uncommitted (fetch : String → Nat → PageResponse)
    (qn : String) (committed : List SqlRow) (reqs : List (String × Nat))
    (n off p : Nat)
    (h1 : hasKey committed qn = false)
    (h2 : (fetch qn 0).hitcount = some n)
    (h3 : n ≠ 0)
    (h4 : off ∈ pageOffsets n)
    (h5 : (fetch qn off).perpage = some p)
    (h6 : p ≠ results_per_page) :
    (processKey fetch qn committed reqs).isAborted = true
      ∧ (processKey fetch qn committed reqs).committed = committed :=
  processKey_fatal_page fetch qn committed reqs n off h1 h2 h3 h4
    (Or.inr ⟨p, h5, h6⟩)

/-- Witness for C2: page 0 of key `"aa"` is well-formed and inserts a row
into the pending batch, but page offset 15 reports page size 30 — the run
aborts and the committed store stays empty. -/
theorem c2_witness :
    hasKey [] "aa" = false ∧ (15 : Nat) ∈ pageOffsets 20 ∧
      (demoFetchLateMismatch "aa" 15).perpage = some 30 ∧
      (processKey demoFetchLateMismatch "aa" [] []).isAborted = true ∧
      (processKey demoFetchLateMismatch "aa" [] []).committed = [] :=
  ⟨rfl, by decide, rfl,
    (c2_mismatch_aborts_uncommitted demoFetchLateMismatch "aa" [] [] 20 15 30
      rfl rfl (by decide) (by decide) rfl (by decide)).1,
    (c2_mismatch_aborts_uncommitted demoFetchLateMismatch "aa" [] [] 20 15 30
      rfl rfl (by decide) (by decide) rfl (by decide)).2⟩

/-- C3: when a key's batch commits, the rows appended during that
transaction carry strictly increasing consecutive ids starting at the
committed store's `max(id) + 1` as observed when the transaction opened
(the per-page reseed from the visible `MAX(id)` continues the same run). -/
theorem c3_consecutive_ids (fetch : String → Nat → PageResponse)
    (qn : String) (committed : List SqlRow) (reqs : List (String × Nat))
    (c' : List SqlRow) (r' : List (String × Nat))
    (h : processKey fetch qn committed reqs = .ok c' r') :
    ∃ newRows, c' = committed ++ newRows ∧
      newRows.map SqlRow.id
        = List.range' (maxId committed + 1) newRows.length := by
  by_cases hk : hasKey committed qn = true
  · rw [processKey_skip fetch qn committed reqs hk] at h
    refine ⟨[], ?_, by simp⟩
    simpa using ((RunOutcome.ok.injEq _ _ _ _ ▸ h).1).symm
  · have hf : hasKey committed qn = false := by simpa using hk
    simp only [processKey, hf, Bool.false_eq_true, if_false] at h
    cases hh : (fetch qn 0).hitcount with
    | none =>
      simp only [hh] at h
      cases h
    | some n =>
      simp only [hh] at h
      by_cases hn : n = 0
      · rw [if_pos hn] at h
        refine ⟨[], ?_, by simp⟩
        simpa using ((RunOutcome.ok.injEq _ _ _ _ ▸ h).1).symm
      · rw [if_neg hn] at h
        cases hp : processOnePage qn 0 committed [] (fetch qn 0) with
        | error e2 =>
          rw [hp] at h
          cases h
        | ok pending =>
          rw [hp] at h
          have hshape := processOnePage_ok_shape qn 0 committed []
            (fetch qn 0) pending hp
          have hinv : pending.map SqlRow.id
              = List.range' (maxId committed + 1) pending.length := by
            rw [hshape]
            simp only [List.nil_append, List.append_nil]
            exact pageRows_ids qn 0 (maxId committed + 1) (fetch qn 0).entries
          exact goPages_ok_ids fetch qn committed _ pending _ c' r' hinv h

/-- Witness for C3 at a server returning one record for key `"aa"`: the
committed rows' ids are the consecutive run from `maxId [] + 1`. -/
theorem c3_witness :
    (processKey demoFetchOk "aa" [] []).committed.map SqlRow.id
      = List.range' (maxId [] + 1)
          (processKey demoFetchOk "aa" [] []).committed.length := by
  obtain ⟨newRows, h1, h2⟩ := c3_consecutive_ids demoFetchOk "aa" [] []
    (processKey demoFetchOk "aa" [] []).committed
    (processKey demoFetchOk "aa" [] []).requests rfl
  rw [h1]
  simpa using h2

/-- C4: for every alphabet, the key enumerator at length 2 yields exactly
the Cartesian product of the alphabet in lexicographic product order, minus
the keys whose first character is a digit; for alphabet `{a, b, c, 1}` it
yields exactly `aa, ab, ac, a1, ba, bb, bc, b1, ca, cb, cc, c1`. -/
theorem c4_enumerator :
    (∀ A : List Char, queryNameList A 2
        = (specProductOrder2 A).filter (fun s => !startsWithDigit s.data))
      ∧ queryNameList ['a', 'b', 'c', '1'] 2
        = ["aa", "ab", "ac", "a1", "ba", "bb", "bc", "b1",
           "ca", "cb", "cc", "c1"] := by
  constructor
  · intro A
    unfold queryNameList
    rw [show ((productRepeat A 2).map fun cs => String.mk cs)
        = (productRepeat A 2).map String.mk from rfl]
    rw [productRepeat_two]
  · decide

/-- C5: flattening is depth-first pre-order — `parse_address` equals the
spec-side two-phase flattener (pre-order id assignment, then pre-order
emission with each child's `parent_id` set to its immediate parent's id and
a top-level `parent_id` as given), and ids are assigned in visiting order,
each node's id before its children's. -/
theorem c5_preorder_flatten (e : AddressElem) (c : Nat) (pid : Option Nat) :
    parse_address e c pid
        = (flattenTree (assignIds e c).1 pid, (assignIds e c).2)
      ∧ (parse_address e c pid).1.map Row.id
        = List.range' c (parse_address e c pid).1.length :=
  ⟨parse_eq_flatten e c pid, parse_ids e c pid⟩

/-- C6: for every flattened page, the number of built records with null
`parent_id` equals the number of top-level nodes, and the page-relative
offset advances over the page by exactly that count. -/
theorem c6_top_level_counts (qn : String) (doc : List AddressElem)
    (c off : Nat) :
    ((buildSqlRows qn (parseAddressList doc c none).1 off 0).1.countP
        (fun s => s.parent_id.isNone) = doc.length)
      ∧ (buildSqlRows qn (parseAddressList doc c none).1 off 0).2
        = off + doc.length := by
  have hcount := parseList_top_count doc c
  constructor
  · rw [buildSqlRows_none_count, hcount]
  · rw [buildSqlRows_offset, hcount]

/-- C7 counterexample: in the page `[parent [child]]` the first child
record directly following the (non-child) parent record carries
`query_child_num = 1`, not 0 as the claim states. -/
theorem c7_counterexample :
    ((buildSqlRows "aa" (parseAddressList demoPage 1 none).1 0 0).1.map
        (fun s => (s.parent_id, s.query_child_num)))
      = [(none, 0), (some 1, 1)] ∧ (1 : Nat) ≠ 0 :=
  ⟨by decide, by decide⟩

/-- C7 as amended: within one flattened page, `query_child_num` is 0 for
every top-level record, 1 for the first child record following a non-child
record, and increases by 1 for each consecutive child record. -/
theorem c7_child_num_amended (qn : String) (rows : List Row) (off : Nat) :
    ((buildSqlRows qn rows off 0).1.all
        (fun s => !s.parent_id.isNone || (s.query_child_num == 0))) = true
      ∧ List.Chain' childNumStep (buildSqlRows qn rows off 0).1 :=
  ⟨buildSqlRows_top_zero qn rows off 0, buildSqlRows_childNum_chain qn rows off 0⟩

/-- C8 counterexample: a `street` element whose text is a single space is
truthy in the source, so its stripped value — the empty string — is stored:
a FlatRecord field can be the empty string. -/
theorem c8_counterexample :
    (parse_address (AddressElem.node [("street", " ")] []) 1 none).1
        = [mkRow 1 none [("street", " ")]]
      ∧ ("street", some "") ∈ (mkRow 1 none [("street", " ")]).cols :=
  ⟨rfl, by decide⟩

/-- C8 as amended: a schema field absent in the source node, or whose text
is empty, maps to null — but a whitespace-only text is stripped to the
empty string, so a field value can be the empty string. -/
theorem c8_absent_or_empty_null (fields : List (String × String))
    (col : String)
    (h : findField fields col = none ∨ findField fields col = some "") :
    fieldValue fields col = none := by
  unfold fieldValue
  rcases h with h | h
  · rw [h]
  · rw [h]
    simp

/-- Witness for C8 (amended) at an empty-text field. -/
theorem c8_witness : fieldValue [("street", "")] "street" = none :=
  c8_absent_or_empty_null [("street", "")] "street" (Or.inr (by decide))

/-- C9 counterexample: a response carrying a result count but no page-size
tag is processed without abort — absence of the page-size tag is not
fatal, contrary to the claim. -/
theorem c9_counterexample :
    (demoFetchNoPerpage "aa" 0).perpage = none ∧
      (processKey demoFetchNoPerpage "aa" [] []).isAborted = false :=
  ⟨rfl, rfl⟩

/-- C9 as amended: for every search response in which the result-count tag
is absent — at the key's first fetch or at any later page refetch — the
error is fatal: the run aborts rather than continuing with that page, with
the transaction uncommitted; absence of the page-size tag, by contrast, is
silently ignored. -/
theorem c9_missing_count_fatal :
    (∀ (fetch : String → Nat → PageResponse) (qn : String)
        (committed : List SqlRow) (reqs : List (String × Nat)),
      hasKey committed qn = false → (fetch qn 0).hitcount = none →
        processKey fetch qn committed reqs
          = .aborted committed (reqs ++ [(qn, 0)]) (.missingHitcount qn 0))
    ∧ (∀ (fetch : String → Nat → PageResponse) (qn : String)
        (committed : List SqlRow) (reqs : List (String × Nat)) (n off : Nat),
      hasKey committed qn = false → (fetch qn 0).hitcount = some n →
        n ≠ 0 → off ∈ pageOffsets n → (fetch qn off).hitcount = none →
        (processKey fetch qn committed reqs).isAborted = true
          ∧ (processKey fetch qn committed reqs).committed = committed) := by
  constructor
  · intro fetch qn committed reqs h1 h2
    simp only [processKey, h1, Bool.false_eq_true, if_false, h2]
  · intro fetch qn committed reqs n off h1 h2 h3 h4 h5
    exact processKey_fatal_page fetch qn committed reqs n off h1 h2 h3 h4
      (Or.inl h5)

/-- Witness for C9 (amended): a missing count tag aborts at a key's first
fetch and also at a later page refetch after a page was already inserted,
each time leaving the committed store unchanged. -/
theorem c9_witness :
    (processKey demoFetchNoCount "aa" [] []
        = .aborted [] [("aa", 0)] (.missingHitcount "aa" 0))
      ∧ (processKey demoFetchLateNoCount "aa" [] []).isAborted = true
      ∧ (processKey demoFetchLateNoCount "aa" [] []).committed = [] :=
  ⟨c9_missing_count_fatal.1 demoFetchNoCount "aa" [] [] rfl rfl,
    (c9_missing_count_fatal.2 demoFetchLateNoCount "aa" [] [] 20 15
      rfl rfl (by decide) (by decide) rfl).1,
    (c9_missing_count_fatal.2 demoFetchLateNoCount "aa" [] [] 20 15
      rfl rfl (by decide) (by decide) rfl).2⟩

/-- C10 counterexample: in the page `[parent [child]]` built at offset 5,
the parent record carries `query_offset = 5` but its child record carries
`query_offset = 6` — a child does not inherit its parent's offset. -/
theorem c10_counterexample :
    ((buildSqlRows "aa" (parseAddressList demoPage 1 none).1 5 0).1.map
        (fun s => (s.id, s.parent_id, s.query_offset)))
      = [(1, none, 5), (2, some 1, 6)] ∧ (6 : Nat) ≠ 5 :=
  ⟨by decide, by decide⟩

/-- C10 as amended: the offset counter is incremented immediately after
each top-level record is emitted, before its children — so the record
following a top-level record carries its offset plus 1, and the record
following a child record carries that child's offset; a parent's children
(which directly follow it) therefore carry the parent's offset plus 1. -/
theorem c10_offset_amended (qn : String) (rows : List Row) (off cn : Nat) :
    List.Chain' offsetStep (buildSqlRows qn rows off cn).1 :=
  buildSqlRows_offset_chain qn rows off cn

end Telefonbuch
